import Mathlib

/-!
Verification of the product-matching core of the `food-price-agent` repository.

Shallow embedding of `src/matchers/product_matcher.py` (class `ProductMatcher`)
together with the configuration it consumes (`config/settings.py`,
`UNIT_CONVERSION`) and the parts of the data model it manipulates
(`src/database/models.py`, `Product` and `ProductMatch`).

Modelling conventions:
* Python strings are `List Char`; `str.lower()` is `lowerName`.
* Python floats are `ℚ` (all the configured constants are exact decimals).
* `Optional[float]` results are `Option ℚ`; `return None` is `none`.
* The external library function `Levenshtein.ratio(a, b)` is modelled by
  `simScore`: the documented semantics of `ratio` is
  `(lensum - ldist) / lensum` where `lensum = len(a) + len(b)` and `ldist`
  is the Levenshtein distance with substitutions weighted `2` (equivalently
  the indel distance), with the convention that the ratio of two empty
  strings is `1.0`.  The weighted distance is `levenshtein ratioCost`,
  built on Mathlib's `levenshtein` with a custom cost structure.
* The SQLAlchemy session is made explicit: the catalog read by
  `session.query(Product)` is a `List Product` argument, and the
  `ProductMatch` table is a `List ProductMatch` threaded through
  `match_all_products`.  Python's stable `list.sort(key=..., reverse=True)`
  is `List.insertionSort` with the (total, transitive) relation
  "score is at least as large", which computes the unique stable
  descending-by-score reordering, the same output Python guarantees.
-/

/-- Python's `str.lower()` applied to a product name (character-wise lowercasing). -/
def lowerName (s : List Char) : List Char := s.map Char.toLower

/-- Cost structure of the distance underlying `Levenshtein.ratio`:
deletions and insertions cost 1, substitutions cost 2. -/
def ratioCost : Levenshtein.Cost Char Char ℕ where
  delete _ := 1
  insert _ := 1
  substitute a b := if a = b then 0 else 2

/-- The substitution-weight-2 Levenshtein distance used by `Levenshtein.ratio`. -/
def indelDist (a b : List Char) : ℕ := levenshtein ratioCost a b

/-- The library function `Levenshtein.ratio(a, b)`: `(lensum - ldist) / lensum`,
and `1` when both strings are empty. -/
def simScore (a b : List Char) : ℚ :=
  if a.length + b.length = 0 then 1
  else ((a.length + b.length : ℚ) - (indelDist a b : ℚ)) / ((a.length + b.length : ℕ) : ℚ)

/-- Model of `ProductMatcher.calculate_similarity`: `ratio(name1.lower(), name2.lower())`. -/
def calculate_similarity (name1 name2 : List Char) : ℚ :=
  simScore (lowerName name1) (lowerName name2)

/-- The plain (unit-cost) edit distance named by the specification. -/
def specEditDistance (a b : List Char) : ℕ := levenshtein Levenshtein.defaultCost a b

/-- Defined from the specification's words, for comparison with the code's
`calculate_similarity`: `score = 1 - (edit_distance(a,b) / max(len(a), len(b)))`
after case folding, `1.0` when both strings are empty. -/
def specSimilarity (a b : List Char) : ℚ :=
  if max a.length b.length = 0 then 1
  else 1 - (specEditDistance (lowerName a) (lowerName b) : ℚ) / ((max a.length b.length : ℕ) : ℚ)

/-- A row of the `products` table, restricted to the fields the matcher reads. -/
structure Product where
  id : ℕ
  name : List Char
deriving DecidableEq, Repr

/-- A row of the `product_matches` table, restricted to the fields
`create_match` writes. -/
structure ProductMatch where
  source_product_id : ℕ
  target_product_id : ℕ
  similarity_score : ℚ
deriving DecidableEq, Repr

/-- The configuration the matcher reads in `__init__`
(`similarity_threshold`, `max_matches`); `max_matches = none` models an
unset bound (Python's `matches[:None]` keeps the whole list). -/
structure MatcherConfig where
  similarity_threshold : ℚ
  max_matches : Option ℕ

/-- Comparison used by `matches.sort(key=lambda x: x[1], reverse=True)`:
a candidate comes before another when its score is at least as large. -/
def scoreGE (a b : Product × ℚ) : Prop := b.2 ≤ a.2

instance : DecidableRel scoreGE := fun a b => inferInstanceAs (Decidable (b.2 ≤ a.2))

instance : IsTotal (Product × ℚ) scoreGE := ⟨fun a b => le_total b.2 a.2⟩

instance : IsTrans (Product × ℚ) scoreGE := ⟨fun _ _ _ h1 h2 => le_trans h2 h1⟩

/-- The unsorted candidate accumulation loop of `ProductMatcher.find_matches`:
all catalog entries other than `product` itself whose similarity to `product`
reaches the threshold, in catalog order, paired with their scores. -/
def candidate_matches (m : MatcherConfig) (product : Product) (catalog : List Product) :
    List (Product × ℚ) :=
  (catalog.filter fun q => q.id ≠ product.id).filterMap fun q =>
    let s := calculate_similarity product.name q.name
    if m.similarity_threshold ≤ s then some (q, s) else none

/-- Model of `ProductMatcher.find_matches`: accumulate the thresholded candidates,
stably sort them by descending score, and truncate to `max_matches`. -/
def find_matches (m : MatcherConfig) (product : Product) (catalog : List Product) :
    List (Product × ℚ) :=
  let sorted := (candidate_matches m product catalog).insertionSort scoreGE
  match m.max_matches with
  | some k => sorted.take k
  | none => sorted

/-- Model of `ProductMatcher.create_match`: build the `ProductMatch` row that is added
to the session (no existence check). -/
def create_match (source_product target_product : Product) (similarity_score : ℚ) :
    ProductMatch :=
  ⟨source_product.id, target_product.id, similarity_score⟩

/-- Model of `ProductMatcher.match_all_products`: for every product in the catalog run
`find_matches` and create one edge per candidate; returns the created edges
and the `product_matches` table after the commit. -/
def match_all_products (m : MatcherConfig) (catalog : List Product)
    (db : List ProductMatch) : List ProductMatch × List ProductMatch :=
  let created := catalog.flatMap fun p =>
    (find_matches m p catalog).map fun qs => create_match p qs.1 qs.2
  (created, db ++ created)

/-- The `UNIT_CONVERSION` table from `config/settings.py`, with the float literals read
as the exact decimals they denote. -/
def UNIT_CONVERSION : List (String × List (String × ℚ)) :=
  [("ml", [("l", 1/1000)]),
   ("g", [("kg", 1/1000)]),
   ("kg", [("g", 1000)]),
   ("l", [("ml", 1000)])]

/-- Dict indexing `self.unit_conversion[from_unit][to_unit]`, with `KeyError` as `none`. -/
def convLookup (from_unit to_unit : String) : Option ℚ :=
  match UNIT_CONVERSION.lookup from_unit with
  | some row => row.lookup to_unit
  | none => none

/-- Model of `ProductMatcher.normalize_price`: identical unit strings return the price
unchanged; otherwise multiply by the table factor, or `none` on `KeyError`. -/
def normalize_price (price : ℚ) (from_unit to_unit : String) : Option ℚ :=
  if from_unit = to_unit then some price
  else
    match convLookup from_unit to_unit with
    | some conversion => some (price * conversion)
    | none => none

/-- Outcome type of the specified price-per-reference-unit computation. -/
inductive PriceNorm where
  | value : ℚ → String → PriceNorm
  | indeterminate : PriceNorm
deriving DecidableEq, Repr

/-- Modelled from the spec: the canonical reference unit of each unit family
(mass → kg, volume → l, count → unit); units outside the fixed vocabulary
have none.  No such mapping exists in the repository's source. -/
def referenceUnit : String → Option String
  | "g" => some "kg"
  | "kg" => some "kg"
  | "ml" => some "l"
  | "l" => some "l"
  | "unit" => some "unit"
  | _ => none

/-- Modelled from the spec: `price_per_reference_unit(price, size, unit)`.
The repository's source has no such function (its `normalize_price` never
divides by a size), so this follows §4.4 of the specification: `size <= 0`
or an unsupported unit yields `Indeterminate`; otherwise `price / size` is
converted to the family's reference unit via the conversion table. -/
def price_per_reference_unit (price size : ℚ) (unit : String) : PriceNorm :=
  if size ≤ 0 then .indeterminate
  else
    match referenceUnit unit with
    | none => .indeterminate
    | some ref =>
        if unit = ref then .value (price / size) ref
        else
          match convLookup unit ref with
          | some f => .value (price / size * f) ref
          | none => .indeterminate

/-! ### Facts about the weighted Levenshtein distance behind `Levenshtein.ratio` -/

lemma indelDist_nil_left (ys : List Char) : indelDist [] ys = ys.length := by
  induction ys with
  | nil => simp [indelDist]
  | cons y ys ih =>
    simp only [indelDist] at ih ⊢
    rw [levenshtein_nil_cons, ih]
    simp [ratioCost, Nat.add_comm]

lemma indelDist_nil_right (xs : List Char) : indelDist xs [] = xs.length := by
  induction xs with
  | nil => simp [indelDist]
  | cons x xs ih =>
    simp only [indelDist] at ih ⊢
    rw [levenshtein_cons_nil, ih]
    simp [ratioCost, Nat.add_comm]

lemma indelDist_symm (a b : List Char) : indelDist a b = indelDist b a := by
  induction a generalizing b with
  | nil => rw [indelDist_nil_left, indelDist_nil_right]
  | cons x xs ihx =>
    induction b with
    | nil => rw [indelDist_nil_left, indelDist_nil_right]
    | cons y ys ihy =>
      simp only [indelDist, levenshtein_cons_cons] at ihy ⊢
      have h1 := ihx (y :: ys)
      have h2 := ihx ys
      simp only [indelDist] at h1 h2
      rw [h1, ← ihy, h2]
      have hsub : ratioCost.substitute x y = ratioCost.substitute y x := by
        simp only [ratioCost]
        by_cases h : x = y
        · simp [h]
        · rw [if_neg h, if_neg (Ne.symm h)]
      rw [hsub]
      simp only [ratioCost]
      omega

lemma indelDist_le (a b : List Char) : indelDist a b ≤ a.length + b.length := by
  induction a generalizing b with
  | nil => rw [indelDist_nil_left]; simp
  | cons x xs ihx =>
    induction b with
    | nil => rw [indelDist_nil_right]; simp
    | cons y ys ihy =>
      simp only [indelDist, levenshtein_cons_cons] at ihy ⊢
      have h2 := ihx ys
      simp only [indelDist] at h2
      have hsub : ratioCost.substitute x y ≤ 2 := by
        simp only [ratioCost]
        split <;> omega
      simp only [List.length_cons, ratioCost] at *
      omega

/-! ### Facts about the similarity score -/

lemma simScore_nonneg (a b : List Char) : 0 ≤ simScore a b := by
  unfold simScore
  split
  · norm_num
  · apply div_nonneg
    · have h := indelDist_le a b
      have : (indelDist a b : ℚ) ≤ ((a.length + b.length : ℕ) : ℚ) := by
        exact_mod_cast h
      push_cast at this ⊢
      linarith
    · positivity

lemma simScore_le_one (a b : List Char) : simScore a b ≤ 1 := by
  unfold simScore
  split
  · norm_num
  · rename_i h
    rw [div_le_one (by positivity)]
    push_cast
    have : (0 : ℚ) ≤ (indelDist a b : ℚ) := by positivity
    linarith

lemma simScore_symm (a b : List Char) : simScore a b = simScore b a := by
  unfold simScore
  rw [indelDist_symm, Nat.add_comm a.length b.length,
    add_comm (a.length : ℚ) (b.length : ℚ)]

lemma length_lowerName (s : List Char) : (lowerName s).length = s.length :=
  List.length_map s Char.toLower

/-- C3: The similarity scorer is symmetric: for all name pairs `a` and `b`,
`similarity(a, b) == similarity(b, a)`. -/
theorem calculate_similarity_symm (a b : List Char) :
    calculate_similarity a b = calculate_similarity b a := by
  unfold calculate_similarity
  exact simScore_symm _ _

/-- C2 counterexample: at `name1 = "ab"`, `name2 = "b"` the code's similarity
(`Levenshtein.ratio`, which equals `2/3` here) differs from the spec's formula
`1 - edit_distance / max(len)` (which equals `1/2` here), so the claimed
equation is false at this concrete input. -/
theorem calculate_similarity_spec_formula_cex :
    calculate_similarity ['a', 'b'] ['b'] ≠ specSimilarity ['a', 'b'] ['b'] := by
  have hlow : lowerName ['a', 'b'] = ['a', 'b'] := by decide
  have hlowb : lowerName ['b'] = ['b'] := by decide
  have hd : indelDist ['a', 'b'] ['b'] = 1 := by decide
  have hs : specEditDistance ['a', 'b'] ['b'] = 1 := by decide
  simp only [calculate_similarity, specSimilarity, simScore, hlow, hlowb, hd, hs]
  norm_num

/-- C2 amended: the code's similarity is the `Levenshtein.ratio` of the
case-folded names — `1 - d/(len(a)+len(b))` where `d` is the edit distance
with substitutions costing 2 (not `1 - d/max(len)` with unit costs); the
result lies in `[0, 1]` and the similarity of two empty strings is `1`. -/
theorem calculate_similarity_ratio_props (a b : List Char) :
    0 ≤ calculate_similarity a b ∧ calculate_similarity a b ≤ 1 ∧
    calculate_similarity [] [] = 1 ∧
    (a.length + b.length ≠ 0 →
      calculate_similarity a b =
        1 - (indelDist (lowerName a) (lowerName b) : ℚ) / ((a.length + b.length : ℕ) : ℚ)) := by
  refine ⟨simScore_nonneg _ _, simScore_le_one _ _, by simp [calculate_similarity, simScore, lowerName], ?_⟩
  intro h
  unfold calculate_similarity simScore
  rw [length_lowerName, length_lowerName, if_neg h]
  have hpos : (0 : ℚ) < ((a.length + b.length : ℕ) : ℚ) := by
    exact_mod_cast Nat.pos_of_ne_zero h
  rw [sub_div]
  have hcast : (a.length : ℚ) + (b.length : ℚ) = ((a.length + b.length : ℕ) : ℚ) := by
    push_cast
    ring
  rw [hcast, div_self (ne_of_gt hpos)]

/-- C2 amended witness: the amended formula instantiated at
`name1 = "ab"`, `name2 = "b"`. -/
theorem calculate_similarity_ratio_props_witness :
    calculate_similarity ['a', 'b'] ['b'] =
      1 - (indelDist (lowerName ['a', 'b']) (lowerName ['b']) : ℚ)
          / (((['a', 'b'] : List Char).length + (['b'] : List Char).length : ℕ) : ℚ) :=
  (calculate_similarity_ratio_props ['a', 'b'] ['b']).2.2.2 (by decide)

/-! ### Membership facts about `find_matches` -/

lemma mem_candidate_matches {m : MatcherConfig} {p q : Product} {s : ℚ}
    {catalog : List Product} :
    (q, s) ∈ candidate_matches m p catalog ↔
      q ∈ catalog ∧ q.id ≠ p.id ∧ s = calculate_similarity p.name q.name ∧
        m.similarity_threshold ≤ s := by
  simp only [candidate_matches, List.mem_filterMap, List.mem_filter, decide_eq_true_eq]
  constructor
  · rintro ⟨q', ⟨hq', hid⟩, hf⟩
    split at hf
    · rename_i hth
      rw [Option.some.injEq, Prod.mk.injEq] at hf
      obtain ⟨rfl, rfl⟩ := hf
      exact ⟨hq', hid, rfl, hth⟩
    · exact absurd hf (by simp)
  · rintro ⟨hq, hid, rfl, hth⟩
    exact ⟨q, ⟨hq, hid⟩, by rw [if_pos hth]⟩

lemma mem_find_matches {m : MatcherConfig} {p q : Product} {s : ℚ}
    {catalog : List Product} (h : (q, s) ∈ find_matches m p catalog) :
    (q, s) ∈ candidate_matches m p catalog := by
  unfold find_matches at h
  rcases hmm : m.max_matches with _ | k <;> rw [hmm] at h
  · exact (List.perm_insertionSort scoreGE _).mem_iff.mp h
  · exact (List.perm_insertionSort scoreGE _).mem_iff.mp ((List.take_sublist k _).subset h)

/-- C4: with no truncation bound configured, `find_matches` keeps exactly the
catalog entries (other than the product itself) whose similarity score is at
least `similarity_threshold`; equality with the threshold is included. -/
theorem find_matches_threshold_iff (m : MatcherConfig) (p : Product)
    (catalog : List Product) (hm : m.max_matches = none) (q : Product) :
    (q, calculate_similarity p.name q.name) ∈ find_matches m p catalog ↔
      q ∈ catalog ∧ q.id ≠ p.id ∧
        m.similarity_threshold ≤ calculate_similarity p.name q.name := by
  unfold find_matches
  rw [hm]
  rw [(List.perm_insertionSort scoreGE _).mem_iff, mem_candidate_matches]
  simp

/-- C6: a product never appears in its own candidate list: every candidate
returned by `find_matches` has an identifier different from the queried
product's. -/
theorem find_matches_no_self_match (m : MatcherConfig) (p : Product)
    (catalog : List Product) :
    ∀ q s, (q, s) ∈ find_matches m p catalog → q.id ≠ p.id := by
  intro q s h
  exact (mem_candidate_matches.mp (mem_find_matches h)).2.1

/-! ### Concrete evaluation helpers -/

lemma indelDist_self (a : List Char) : indelDist a a = 0 := by
  induction a with
  | nil => simp [indelDist]
  | cons x xs ih =>
    simp only [indelDist] at ih ⊢
    rw [levenshtein_cons_cons]
    have hs : ratioCost.substitute x x = 0 := by simp [ratioCost]
    rw [hs, ih]
    simp

lemma calculate_similarity_self (a : List Char) (h : a ≠ []) :
    calculate_similarity a a = 1 := by
  unfold calculate_similarity simScore
  have hn : (lowerName a).length = a.length := length_lowerName a
  have hne : a.length ≠ 0 := fun h0 => h (List.eq_nil_of_length_eq_zero h0)
  rw [indelDist_self, hn, if_neg (by omega)]
  have hcast : (a.length : ℚ) + (a.length : ℚ) = ((a.length + a.length : ℕ) : ℚ) := by
    push_cast
    ring
  rw [Nat.cast_zero, sub_zero, hcast,
    div_self (by exact_mod_cast (by omega : a.length + a.length ≠ 0))]

/-- Shared concrete similarity value: `ratio("ab", "b") = 2/3`. -/
lemma calculate_similarity_ab_b : calculate_similarity ['a', 'b'] ['b'] = 2/3 := by
  have hlow : lowerName ['a', 'b'] = ['a', 'b'] := by decide
  have hlowb : lowerName ['b'] = ['b'] := by decide
  have hd : indelDist ['a', 'b'] ['b'] = 1 := by decide
  simp only [calculate_similarity, hlow, hlowb, simScore, hd]
  norm_num

/-- Example configuration: the default threshold `0.8`, no match cap. -/
def exCfg : MatcherConfig := ⟨8/10, none⟩

/-- Example products; `pB` and `pC` share a name but `pB` has the larger id
and comes first in the catalog. -/
def pA : Product := ⟨1, ['a', 'a']⟩

def pB : Product := ⟨5, ['a', 'a']⟩

def pC : Product := ⟨3, ['a', 'a']⟩

lemma find_matches_ex_eval :
    find_matches exCfg pA [pA, pB, pC] = [(pB, 1), (pC, 1)] := by
  have h1 : calculate_similarity ['a', 'a'] ['a', 'a'] = 1 :=
    calculate_similarity_self _ (by decide)
  simp only [find_matches, candidate_matches, exCfg, pA, pB, pC, List.filter,
    List.filterMap, h1]
  norm_num [List.insertionSort, List.orderedInsert, scoreGE]

/-- C5 counterexample: on the catalog `[pA, pB, pC]` the two candidates `pB`
(id 5) and `pC` (id 3) tie with score 1, yet `find_matches` returns them in
catalog order `[5, 3]`, not in ascending identifier order `[3, 5]` as claimed:
Python's stable sort keeps the original order of equal scores. -/
theorem find_matches_tie_order_cex :
    (find_matches exCfg pA [pA, pB, pC]).map (fun c => c.1.id) = [5, 3] ∧
    (find_matches exCfg pA [pA, pB, pC]).map (fun c => c.2) = [1, 1] ∧
    (find_matches exCfg pA [pA, pB, pC]).map (fun c => c.1.id) ≠ [3, 5] := by
  rw [find_matches_ex_eval]
  refine ⟨rfl, rfl, by decide⟩

/-- C5 amended: the candidate list is sorted descending by similarity score —
equal scores keep the catalog order of the stable sort, not ascending
identifier order — and is truncated to at most `max_matches` entries
(unbounded when `max_matches` is unset). -/
theorem find_matches_sorted_truncated (m : MatcherConfig) (p : Product)
    (catalog : List Product) :
    (find_matches m p catalog).Pairwise scoreGE ∧
    (∀ k, m.max_matches = some k → (find_matches m p catalog).length ≤ k) := by
  have hs : ((candidate_matches m p catalog).insertionSort scoreGE).Pairwise scoreGE :=
    List.sorted_insertionSort scoreGE _
  constructor
  · unfold find_matches
    rcases m.max_matches with _ | k
    · exact hs
    · exact List.Pairwise.sublist (List.take_sublist k _) hs
  · intro k hk
    unfold find_matches
    rw [hk]
    simp [List.length_take]

/-- C5 amended witness: with `max_matches = 1` on the tie example, the result
is descending by score and has at most one entry. -/
theorem find_matches_sorted_truncated_witness :
    (find_matches ⟨8/10, some 1⟩ pA [pA, pB, pC]).Pairwise scoreGE ∧
    (find_matches ⟨8/10, some 1⟩ pA [pA, pB, pC]).length ≤ 1 := by
  obtain ⟨h1, h2⟩ := find_matches_sorted_truncated ⟨8/10, some 1⟩ pA [pA, pB, pC]
  exact ⟨h1, h2 1 rfl⟩

/-- Boundary example: a configuration whose threshold `2/3` is hit exactly by
the pair `("ab", "b")`. -/
def exCfgBoundary : MatcherConfig := ⟨2/3, none⟩

def pD : Product := ⟨7, ['a', 'b']⟩

def pE : Product := ⟨9, ['b']⟩

/-- C4 witness: a candidate whose score equals the threshold exactly
(`ratio("ab","b") = 2/3 = similarity_threshold`) is included. -/
theorem find_matches_threshold_iff_witness :
    (pE, calculate_similarity pD.name pE.name) ∈ find_matches exCfgBoundary pD [pD, pE] := by
  refine (find_matches_threshold_iff exCfgBoundary pD [pD, pE] rfl pE).mpr
    ⟨by simp, by decide, ?_⟩
  have h1 : calculate_similarity pD.name pE.name = 2/3 := calculate_similarity_ab_b
  rw [h1]
  norm_num [exCfgBoundary]

/-- C6 witness: on the concrete example, the candidate `pB` returned for `pA`
has a different identifier. -/
theorem find_matches_no_self_match_witness : pB.id ≠ pA.id :=
  find_matches_no_self_match exCfg pA [pA, pB, pC] pB 1
    (by rw [find_matches_ex_eval]; simp)

/-! ### The match-all run -/

/-- Second example product for the two-element catalog used with `match_all`. -/
def pQ : Product := ⟨2, ['a', 'a']⟩

lemma find_matches_pA_eval : find_matches exCfg pA [pA, pQ] = [(pQ, 1)] := by
  have h1 : calculate_similarity ['a', 'a'] ['a', 'a'] = 1 :=
    calculate_similarity_self _ (by decide)
  simp only [find_matches, candidate_matches, exCfg, pA, pQ, List.filter,
    List.filterMap, h1]
  norm_num [List.insertionSort, List.orderedInsert, scoreGE]

lemma find_matches_pQ_eval : find_matches exCfg pQ [pA, pQ] = [(pA, 1)] := by
  have h1 : calculate_similarity ['a', 'a'] ['a', 'a'] = 1 :=
    calculate_similarity_self _ (by decide)
  simp only [find_matches, candidate_matches, exCfg, pA, pQ, List.filter,
    List.filterMap, h1]
  norm_num [List.insertionSort, List.orderedInsert, scoreGE]

lemma match_all_ex_eval :
    match_all_products exCfg [pA, pQ] [] =
      ([⟨1, 2, 1⟩, ⟨2, 1, 1⟩], [⟨1, 2, 1⟩, ⟨2, 1, 1⟩]) := by
  simp only [match_all_products, List.flatMap_cons, List.flatMap_nil,
    find_matches_pA_eval, find_matches_pQ_eval]
  simp [create_match, pA, pQ]

lemma match_all_ex_eval_second :
    match_all_products exCfg [pA, pQ] [⟨1, 2, 1⟩, ⟨2, 1, 1⟩] =
      ([⟨1, 2, 1⟩, ⟨2, 1, 1⟩], [⟨1, 2, 1⟩, ⟨2, 1, 1⟩, ⟨1, 2, 1⟩, ⟨2, 1, 1⟩]) := by
  simp only [match_all_products, List.flatMap_cons, List.flatMap_nil,
    find_matches_pA_eval, find_matches_pQ_eval]
  simp [create_match, pA, pQ]

/-- C1 counterexample: on the unchanged two-product catalog `[pA, pQ]`, the
second `match_all_products` run creates two new edges (not zero), and after
the two runs the ordered pair `(1, 2)` has two `ProductMatch` rows — there is
no existence check before insertion. -/
theorem match_all_products_idempotence_cex :
    (match_all_products exCfg [pA, pQ]
        (match_all_products exCfg [pA, pQ] []).2).1 ≠ ([] : List ProductMatch) ∧
    ((match_all_products exCfg [pA, pQ]
        (match_all_products exCfg [pA, pQ] []).2).2.count ⟨1, 2, 1⟩) = 2 := by
  rw [match_all_ex_eval]
  dsimp only
  rw [match_all_ex_eval_second]
  refine ⟨by simp, ?_⟩
  norm_num [List.count_cons, List.count_nil, ProductMatch.mk.injEq]

/-- C1 amended: `match_all_products` performs no existence check: the set of
edges it creates is a function of the catalog alone, so a second run on an
unchanged catalog re-creates exactly the first run's edges, appends them to
the table again, and every edge created by the first run occurs at least
twice afterwards — duplicate ordered pairs accumulate instead of being
prevented. -/
theorem match_all_products_additive (m : MatcherConfig) (catalog : List Product)
    (db : List ProductMatch) :
    (match_all_products m catalog (match_all_products m catalog db).2).1
        = (match_all_products m catalog db).1 ∧
    (match_all_products m catalog (match_all_products m catalog db).2).2
        = db ++ (match_all_products m catalog db).1 ++ (match_all_products m catalog db).1 ∧
    ∀ e ∈ (match_all_products m catalog db).1,
      2 ≤ ((match_all_products m catalog
        (match_all_products m catalog db).2).2.count e) := by
  refine ⟨rfl, by simp [match_all_products], ?_⟩
  intro e he
  have h2 : (match_all_products m catalog (match_all_products m catalog db).2).2
      = db ++ (match_all_products m catalog db).1 ++ (match_all_products m catalog db).1 := by
    simp [match_all_products]
  rw [h2]
  have hc : 0 < (match_all_products m catalog db).1.count e := by
    rw [List.count_pos_iff]
    exact he
  rw [List.count_append, List.count_append]
  omega

/-- C1 amended witness: on the concrete catalog `[pA, pQ]`, the edge
`(1, 2, 1)` created by the first run occurs at least twice after the second
run. -/
theorem match_all_products_additive_witness :
    2 ≤ ((match_all_products exCfg [pA, pQ]
      (match_all_products exCfg [pA, pQ] []).2).2.count ⟨1, 2, 1⟩) := by
  refine (match_all_products_additive exCfg [pA, pQ] []).2.2 ⟨1, 2, 1⟩ ?_
  rw [match_all_ex_eval]
  dsimp only
  simp

/-! ### Unit conversion and price normalization -/

lemma lookup_single_ne {v k : String} {q : ℚ} (h : v ≠ k) :
    List.lookup v [(k, q)] = none := by
  simp [List.lookup, beq_eq_false_iff_ne.mpr h]

/-- The conversion table defines exactly four directed factors. -/
lemma convLookup_cases {u v : String} {f : ℚ} (h : convLookup u v = some f) :
    u = "ml" ∧ v = "l" ∧ f = 1/1000 ∨ u = "g" ∧ v = "kg" ∧ f = 1/1000 ∨
    u = "kg" ∧ v = "g" ∧ f = 1000 ∨ u = "l" ∧ v = "ml" ∧ f = 1000 := by
  by_cases h1 : u = "ml"
  · subst h1
    by_cases hv : v = "l"
    · subst hv
      rw [show convLookup "ml" "l" = some (1/1000) from rfl, Option.some.injEq] at h
      exact Or.inl ⟨rfl, rfl, h.symm⟩
    · rw [show convLookup "ml" v = List.lookup v [("l", 1/1000)] from rfl,
        lookup_single_ne hv] at h
      exact absurd h (by simp)
  by_cases h2 : u = "g"
  · subst h2
    by_cases hv : v = "kg"
    · subst hv
      rw [show convLookup "g" "kg" = some (1/1000) from rfl, Option.some.injEq] at h
      exact Or.inr (Or.inl ⟨rfl, rfl, h.symm⟩)
    · rw [show convLookup "g" v = List.lookup v [("kg", 1/1000)] from rfl,
        lookup_single_ne hv] at h
      exact absurd h (by simp)
  by_cases h3 : u = "kg"
  · subst h3
    by_cases hv : v = "g"
    · subst hv
      rw [show convLookup "kg" "g" = some 1000 from rfl, Option.some.injEq] at h
      exact Or.inr (Or.inr (Or.inl ⟨rfl, rfl, h.symm⟩))
    · rw [show convLookup "kg" v = List.lookup v [("g", 1000)] from rfl,
        lookup_single_ne hv] at h
      exact absurd h (by simp)
  by_cases h4 : u = "l"
  · subst h4
    by_cases hv : v = "ml"
    · subst hv
      rw [show convLookup "l" "ml" = some 1000 from rfl, Option.some.injEq] at h
      exact Or.inr (Or.inr (Or.inr ⟨rfl, rfl, h.symm⟩))
    · rw [show convLookup "l" v = List.lookup v [("ml", 1000)] from rfl,
        lookup_single_ne hv] at h
      exact absurd h (by simp)
  · exfalso
    have hnone : UNIT_CONVERSION.lookup u = none := by
      unfold UNIT_CONVERSION
      simp [List.lookup, beq_eq_false_iff_ne.mpr h1, beq_eq_false_iff_ne.mpr h2,
        beq_eq_false_iff_ne.mpr h3, beq_eq_false_iff_ne.mpr h4]
    unfold convLookup at h
    rw [hnone] at h
    exact absurd h (by simp)

lemma normalize_price_round_trip_aux (u v : String) (f g : ℚ) (huv : u ≠ v)
    (h1 : convLookup u v = some f) (h2 : convLookup v u = some g)
    (hfg : f * g = 1) (x : ℚ) :
    (normalize_price x u v).bind (fun y => normalize_price y v u) = some x := by
  unfold normalize_price
  rw [if_neg huv, h1]
  dsimp only [Option.bind]
  rw [if_neg (Ne.symm huv), h2, Option.some.injEq]
  calc x * f * g = x * (f * g) := by ring
  _ = x := by rw [hfg, mul_one]

/-- C9: for every unit pair with both conversion directions defined in
`UNIT_CONVERSION`, converting a price and converting the result back yields
exactly the original price (the factors are the exact rationals `1/1000` and
`1000`). -/
theorem normalize_price_round_trip (u v : String) (f g : ℚ)
    (h1 : convLookup u v = some f) (h2 : convLookup v u = some g) (x : ℚ) :
    (normalize_price x u v).bind (fun y => normalize_price y v u) = some x := by
  rcases convLookup_cases h1 with ⟨hu, hv, hf⟩ | ⟨hu, hv, hf⟩ | ⟨hu, hv, hf⟩ | ⟨hu, hv, hf⟩ <;>
    subst hu <;> subst hv <;> subst hf
  · have hg : g = 1000 := by
      rw [show convLookup "l" "ml" = some 1000 from rfl, Option.some.injEq] at h2
      exact h2.symm
    subst hg
    exact normalize_price_round_trip_aux "ml" "l" (1/1000) 1000 (by decide) rfl rfl
      (by norm_num) x
  · have hg : g = 1000 := by
      rw [show convLookup "kg" "g" = some 1000 from rfl, Option.some.injEq] at h2
      exact h2.symm
    subst hg
    exact normalize_price_round_trip_aux "g" "kg" (1/1000) 1000 (by decide) rfl rfl
      (by norm_num) x
  · have hg : g = 1/1000 := by
      rw [show convLookup "g" "kg" = some (1/1000) from rfl, Option.some.injEq] at h2
      exact h2.symm
    subst hg
    exact normalize_price_round_trip_aux "kg" "g" 1000 (1/1000) (by decide) rfl rfl
      (by norm_num) x
  · have hg : g = 1/1000 := by
      rw [show convLookup "ml" "l" = some (1/1000) from rfl, Option.some.injEq] at h2
      exact h2.symm
    subst hg
    exact normalize_price_round_trip_aux "l" "ml" 1000 (1/1000) (by decide) rfl rfl
      (by norm_num) x

/-- C9 witness: a millilitre price converted to litres and back is unchanged. -/
theorem normalize_price_round_trip_witness :
    (normalize_price 7 "ml" "l").bind (fun y => normalize_price y "l" "ml") = some 7 :=
  normalize_price_round_trip "ml" "l" (1/1000) 1000 rfl rfl 7

/-- C8 counterexample: the unsupported unit `"xyz"` is not rejected when the
source and target strings are equal — `normalize_price` returns the price
unchanged instead of signalling an error. -/
theorem normalize_price_unsupported_cex :
    normalize_price 10 "xyz" "xyz" = some 10 ∧
    normalize_price 10 "xyz" "xyz" ≠ none := by
  refine ⟨by simp [normalize_price], ?_⟩
  simp [normalize_price]

/-- C8 amended: a source unit outside the conversion table's vocabulary is
rejected (the error is surfaced as `none`, never fatal) for every price and
every target unit different from it; when the two unit strings are equal the
price is instead returned unchanged with no error. -/
theorem normalize_price_unsupported (price : ℚ) (u t : String)
    (hml : u ≠ "ml") (hg : u ≠ "g") (hkg : u ≠ "kg") (hl : u ≠ "l")
    (hne : u ≠ t) :
    normalize_price price u t = none := by
  have hnone : UNIT_CONVERSION.lookup u = none := by
    unfold UNIT_CONVERSION
    simp [List.lookup, beq_eq_false_iff_ne.mpr hml, beq_eq_false_iff_ne.mpr hg,
      beq_eq_false_iff_ne.mpr hkg, beq_eq_false_iff_ne.mpr hl]
  unfold normalize_price convLookup
  rw [if_neg hne, hnone]

/-- C8 amended witness: converting from the unsupported unit `"xyz"` to
`"kg"` is rejected. -/
theorem normalize_price_unsupported_witness :
    normalize_price 7 "xyz" "kg" = none :=
  normalize_price_unsupported 7 "xyz" "kg" (by decide) (by decide) (by decide)
    (by decide) (by decide)

/-- C7 (modelled from the spec, see `price_per_reference_unit`): a
non-positive size — zero included — yields `Indeterminate`; no division
result is ever produced for such a size. -/
theorem price_per_reference_unit_nonpos_size (price size : ℚ) (unit : String)
    (h : size ≤ 0) :
    price_per_reference_unit price size unit = PriceNorm.indeterminate := by
  unfold price_per_reference_unit
  rw [if_pos h]

/-- C7 witness: the spec's example `price_per_reference_unit(10.0, 0, "kg")`
returns `Indeterminate`. -/
theorem price_per_reference_unit_nonpos_size_witness :
    price_per_reference_unit 10 0 "kg" = PriceNorm.indeterminate :=
  price_per_reference_unit_nonpos_size 10 0 "kg" le_rfl

/-- C10: whenever the source unit string equals the target unit string,
`normalize_price` returns the price unchanged — for every unit string
whatsoever, supported or not, without consulting the conversion table and
without signalling any error. -/
theorem normalize_price_same_unit (price : ℚ) (u : String) :
    normalize_price price u u = some price := by
  unfold normalize_price
  rw [if_pos rfl]
